import Mathlib

set_option maxRecDepth 4000

/-! Shallow embedding of the rlmlm_exporter license-telemetry core.
Strings are modelled as lists of unicode scalar values, matching the rune
level at which the Go code inspects its input. -/

/-- Convert a string literal to the character-list representation. -/
def chars (s : String) : List Char := s.data

/-- Whitespace set trimmed by strings.TrimSpace (ASCII subset). -/
def isGoSpace (c : Char) : Bool :=
  c = ' ' ∨ c = '\t' ∨ c = '\n' ∨ c = '\x0b' ∨ c = '\x0c' ∨ c = '\r'

/-- Drop leading Go whitespace. -/
def trimLeadWs : List Char → List Char
  | [] => []
  | c :: t => if isGoSpace c then trimLeadWs t else c :: t

/-- strings.TrimSpace: drop leading and trailing whitespace. -/
def trimSpace (l : List Char) : List Char :=
  (trimLeadWs (trimLeadWs l).reverse).reverse

/-- strings.Split with a single-character separator. -/
def splitOnChar (sep : Char) : List Char → List (List Char)
  | [] => [[]]
  | c :: rest =>
    if c = sep then [] :: splitOnChar sep rest
    else
      match splitOnChar sep rest with
      | h :: t => (c :: h) :: t
      | [] => [[c]]

/-- Lowercase an ASCII letter, keep anything else. -/
def asciiLower (c : Char) : Char :=
  if 'A' ≤ c ∧ c ≤ 'Z' then Char.ofNat (c.toNat + 32) else c

/-- Uppercase an ASCII letter, keep anything else. -/
def asciiUpper (c : Char) : Char :=
  if 'a' ≤ c ∧ c ≤ 'z' then Char.ofNat (c.toNat - 32) else c

/-- strings.EqualFold restricted to ASCII case folding. -/
def equalFold (a b : List Char) : Bool :=
  a.map asciiLower = b.map asciiLower

/-- strings.ToLower restricted to ASCII. -/
def lowerStr (l : List Char) : List Char := l.map asciiLower

/-- ASCII letter test. -/
def isAsciiLetter (c : Char) : Bool :=
  ('a' ≤ c ∧ c ≤ 'z') ∨ ('A' ≤ c ∧ c ≤ 'Z')

/-- Word-character class of the regexp engine: letters, digits, underscore. -/
def isWordChar (c : Char) : Bool :=
  c.isDigit ∨ isAsciiLetter c ∨ c = '_'

/-- strings.Title word separator test (ASCII part of Go isSeparator). -/
def goIsSeparator (c : Char) : Bool :=
  ¬ (c.isDigit ∨ isAsciiLetter c ∨ c = '_')

/-- Worker of strings.Title carrying the previous character. -/
def goTitleGo (prev : Char) : List Char → List Char
  | [] => []
  | c :: t => (if goIsSeparator prev then asciiUpper c else c) :: goTitleGo c t

/-- strings.Title (ASCII): title-case a letter that follows a separator. -/
def goTitle (l : List Char) : List Char := goTitleGo ' ' l

/-- strconv.Itoa on naturals. -/
def itoa (n : Nat) : List Char := (Nat.repr n).data

/-! Fixed-layout date parsing modelling time.Parse for the two layouts the
code uses, together with the Unix epoch computation. -/

/-- Short month names used by the fixed time layouts. -/
def shortMonthNames : List (List Char) :=
  [chars "Jan", chars "Feb", chars "Mar", chars "Apr", chars "May", chars "Jun",
   chars "Jul", chars "Aug", chars "Sep", chars "Oct", chars "Nov", chars "Dec"]

/-- Byte-level case-insensitive comparison performed by the time package. -/
def goByteFoldEq (a b : Char) : Bool :=
  a = b ∨
    (let a' := Char.ofNat (a.toNat ||| 32)
     let b' := Char.ofNat (b.toNat ||| 32)
     a' = b' ∧ 'a' ≤ a' ∧ a' ≤ 'z')

/-- Case-insensitive equality of equal-length character lists. -/
def goMatchList : List Char → List Char → Bool
  | [], [] => true
  | a :: as', b :: bs => goByteFoldEq a b ∧ goMatchList as' bs
  | _, _ => false

/-- Find which month name is a case-insensitive prefix of the value. -/
def lookupIn : List (List Char) → Nat → List Char → Option (Nat × List Char)
  | [], _, _ => none
  | name :: rest, i, val =>
    if name.length ≤ val.length ∧ goMatchList (val.take name.length) name
    then some (i + 1, val.drop name.length)
    else lookupIn rest (i + 1) val

/-- Month lookup of the time layouts: 1-based month and the remainder. -/
def lookupMonth (val : List Char) : Option (Nat × List Char) :=
  lookupIn shortMonthNames 0 val

/-- Fixed two-digit number of the zero-padded day layout element. -/
def getnum2 : List Char → Option (Nat × List Char)
  | a :: b :: t =>
    if a.isDigit ∧ b.isDigit
    then some ((a.toNat - 48) * 10 + (b.toNat - 48), t)
    else none
  | _ => none

/-- Fixed four-digit year of the long-year layout element. -/
def getYear4 : List Char → Option (Nat × List Char)
  | a :: b :: c :: d :: t =>
    if a.isDigit ∧ b.isDigit ∧ c.isDigit ∧ d.isDigit
    then some (((a.toNat - 48) * 10 + (b.toNat - 48)) * 100 +
               (c.toNat - 48) * 10 + (d.toNat - 48), t)
    else none
  | _ => none

/-- Proleptic Gregorian leap-year test. -/
def isLeapYear (y : Nat) : Bool :=
  y % 4 = 0 ∧ (y % 100 ≠ 0 ∨ y % 400 = 0)

/-- Days in a month, as validated by time.Parse. -/
def monthDays (m y : Nat) : Nat :=
  if m = 2 then (if isLeapYear y then 29 else 28)
  else if m = 4 ∨ m = 6 ∨ m = 9 ∨ m = 11 then 30
  else 31

/-- Days from 1970-01-01 to the given civil date. -/
def daysFromCivil (y : Int) (m d : Nat) : Int :=
  let yAdj : Int := if m ≤ 2 then y - 1 else y
  let era : Int := Int.fdiv yAdj 400
  let yoe : Int := yAdj - era * 400
  let mp : Nat := if m > 2 then m - 3 else m + 9
  let doy : Int := (((153 * mp + 2) / 5 + d : Nat) : Int) - 1
  let doe : Int := yoe * 365 + Int.fdiv yoe 4 - Int.fdiv yoe 100 + doy
  era * 146097 + doe - 719468

/-- Unix epoch seconds of a date at midnight UTC, as produced by Time.Unix. -/
def dateUnix (y m d : Nat) : Int := 86400 * daysFromCivil (Int.ofNat y) m d

/-- time.Parse with layout 02-Jan-2006: day, month name, four-digit year. -/
def goParseDMY (s : List Char) : Option (Nat × Nat × Nat) :=
  match getnum2 s with
  | none => none
  | some (day, r1) =>
    match r1 with
    | '-' :: r2 =>
      match lookupMonth r2 with
      | none => none
      | some (mon, r3) =>
        match r3 with
        | '-' :: r4 =>
          match getYear4 r4 with
          | none => none
          | some (year, r5) =>
            if r5 = [] ∧ 1 ≤ day ∧ day ≤ monthDays mon year
            then some (year, mon, day) else none
        | _ => none
    | _ => none

/-- time.Parse with layout Jan 02, 2006: month name, day, four-digit year. -/
def goParseMDY (s : List Char) : Option (Nat × Nat × Nat) :=
  match lookupMonth s with
  | none => none
  | some (mon, r1) =>
    match r1 with
    | ' ' :: r2 =>
      match getnum2 r2 with
      | none => none
      | some (day, r3) =>
        match r3 with
        | ',' :: ' ' :: r4 =>
          match getYear4 r4 with
          | none => none
          | some (year, r5) =>
            if r5 = [] ∧ 1 ≤ day ∧ day ≤ monthDays mon year
            then some (year, mon, day) else none
        | _ => none
    | _ => none

/-- Float values observable in the embedded metrics. -/
inductive GoFloat where
  | nan : GoFloat
  | inf : GoFloat
  | val : Int → GoFloat
deriving DecidableEq, Repr

/-- Normalized day-month-year candidate string built by parseExpiry for a
three-token input: zero-pad a one-character day, title-case the lowered
month, and left-pad a one-character year with three zeros. -/
def dmyNormalize (d m y : List Char) : List Char :=
  let day := if d.length = 1 then '0' :: d else d
  let month := goTitle (lowerStr m)
  let year := if y.length = 1 then '0' :: '0' :: '0' :: y else y
  day ++ ['-'] ++ month ++ ['-'] ++ year

/-- Second attempt of parseExpiry against the Jan 02, 2006 layout. -/
def parseExpiryMDY (raw : List Char) : GoFloat :=
  match goParseMDY raw with
  | some (y, m, d) =>
    let u := dateUnix y m d
    if u ≤ 0 then .inf else .val u
  | none => .inf

/-- parseExpiry: normalize raw expiry text to epoch seconds or +Inf. -/
def parseExpiry (raw : List Char) : GoFloat :=
  if raw = [] then .inf
  else if equalFold raw (chars "permanent") ∨ equalFold raw (chars "none") then .inf
  else
    match splitOnChar '-' raw with
    | [d, m, y] =>
      match goParseDMY (dmyNormalize d m y) with
      | some (yy, mm, dd) =>
        let u := dateUnix yy mm dd
        if u ≤ 0 then .inf else .val u
      | none => parseExpiryMDY raw
    | _ => parseExpiryMDY raw

/-! Embedding of the encoding/csv reader as configured by
splitFeatureExpOutput: field delimiter U+017D, comment character the hash
sign, lazy quotes enabled, field count enforced from the first record. -/

/-- Field delimiter configured on the csv reader. -/
def csvComma : Char := 'Ž'

/-- Take one raw line including its terminating newline, if any. -/
def csvTakeLine : List Char → List Char × List Char
  | [] => ([], [])
  | '\n' :: rest => (['\n'], rest)
  | c :: rest =>
    let (l, r) := csvTakeLine rest
    (c :: l, r)

/-- Line normalization of readLine: carriage-return-newline becomes a bare
newline, and a trailing carriage return at end of input is dropped. -/
def csvNormalizeLine (line : List Char) : List Char :=
  match line.reverse with
  | '\n' :: '\r' :: rs => ('\n' :: rs).reverse
  | '\n' :: _ => line
  | '\r' :: rs => rs.reverse
  | _ => line

/-- readLine: next line (normalized) and the remaining input. -/
def csvReadLine (input : List Char) : List Char × List Char :=
  let (l, r) := csvTakeLine input
  (csvNormalizeLine l, r)

/-- Break a list at the first occurrence of a character. -/
def breakAtChar (c : Char) : List Char → Option (List Char × List Char)
  | [] => none
  | x :: t =>
    if x = c then some ([], t)
    else
      match breakAtChar c t with
      | some (pre, post) => some (x :: pre, post)
      | none => none

/-- Drop one trailing newline from an unquoted final field. -/
def stripNL (l : List Char) : List Char :=
  match l.reverse with
  | '\n' :: rs => rs.reverse
  | _ => l

/-- Skip comment and blank lines and return the first content line, or none
at end of input. -/
def csvSkipToContent : Nat → List Char → Option (List Char × List Char)
  | 0, _ => none
  | _ + 1, [] => none
  | fuel + 1, input@(_ :: _) =>
    let (line, rest) := csvReadLine input
    if line.head? = some '#' then csvSkipToContent fuel rest
    else if line = [] ∨ line = ['\n'] then csvSkipToContent fuel rest
    else some (line, rest)

/-- Outcome of scanning one quoted field. -/
inductive QuotedOut where
  | moreFields : List Char → List Char → List Char → QuotedOut
  | endRecord : List Char → List Char → QuotedOut
deriving DecidableEq, Repr

/-- Quoted-field scanner with lazy quotes: a doubled quote is an escaped
quote, quote-comma ends the field, quote-newline or end of input ends the
record, a stray quote is kept literally, and the field may span lines. -/
def csvQuoted : Nat → List Char → List Char → List Char → QuotedOut
  | 0, acc, _, rest => .endRecord acc rest
  | fuel + 1, acc, line, rest =>
    match breakAtChar '"' line with
    | some (pre, after) =>
      let acc := acc ++ pre
      match after with
      | [] => .endRecord acc rest
      | c :: t =>
        if c = '"' then csvQuoted fuel (acc ++ ['"']) t rest
        else if c = csvComma then .moreFields acc t rest
        else if after = ['\n'] then .endRecord acc rest
        else csvQuoted fuel (acc ++ ['"']) after rest
    | none =>
      if line = [] then .endRecord acc rest
      else
        let acc := acc ++ line
        let (l2, r2) := csvReadLine rest
        csvQuoted fuel acc l2 r2

/-- Split one record line into fields, consuming continuation lines for
multi-line quoted fields. -/
def csvParseFields : Nat → List Char → List Char → List (List Char) →
    List (List Char) × List Char
  | 0, _, rest, fields => (fields.reverse, rest)
  | fuel + 1, line, rest, fields =>
    if line.head? = some '"' then
      match csvQuoted fuel [] line.tail rest with
      | .moreFields f l' r' => csvParseFields fuel l' r' (f :: fields)
      | .endRecord f r' => ((f :: fields).reverse, r')
    else
      match breakAtChar csvComma line with
      | some (f, after) => csvParseFields fuel after rest (f :: fields)
      | none => ((stripNL line :: fields).reverse, rest)

/-- Read one record, or none at end of input. -/
def csvParseRecord (fuel : Nat) (input : List Char) :
    Option (List (List Char) × List Char) :=
  match csvSkipToContent fuel input with
  | none => none
  | some (line, rest) => some (csvParseFields fuel line rest [])

/-- Error raised by the csv reader under these settings. -/
inductive CsvErr where
  | fieldCount : CsvErr
deriving DecidableEq, Repr

/-- ReadAll: gather records, enforcing the field count of the first record
on all later records. -/
def csvReadAll : Nat → List Char → Option Nat → List (List (List Char)) →
    Except CsvErr (List (List (List Char)))
  | 0, _, _, acc => .ok acc.reverse
  | fuel + 1, input, fpr, acc =>
    match csvParseRecord (input.length + 1) input with
    | none => .ok acc.reverse
    | some (rec, rest) =>
      match fpr with
      | none => csvReadAll fuel rest (some rec.length) (rec :: acc)
      | some n =>
        if rec.length = n then csvReadAll fuel rest fpr (rec :: acc)
        else .error .fieldCount

/-- Occurrence map of the dedup pass, modelling the Go map. -/
def lookupSeen : List (List Char × Nat) → List Char → Option Nat
  | [], _ => none
  | (k, v) :: t, key => if k = key then some v else lookupSeen t key

/-- Store an occurrence count in the map. -/
def setSeen : List (List Char × Nat) → List Char → Nat → List (List Char × Nat)
  | [], key, v => [(key, v)]
  | (k, w) :: t, key, v =>
    if k = key then (k, v) :: t else (k, w) :: setSeen t key v

/-- Record-filtering pass of splitFeatureExpOutput: skip empty rows, trim
every field, and disambiguate repeated first-column keys by appending the
occurrence count starting at 2. -/
def dedupGo (seen : List (List Char × Nat)) :
    List (List (List Char)) → List (List (List Char))
  | [] => []
  | row :: rest =>
    match row with
    | [] => dedupGo seen rest
    | r0 :: rs =>
      let key := trimSpace r0
      let rs' := rs.map trimSpace
      match lookupSeen seen key with
      | some c => ((key ++ itoa (c + 1)) :: rs') :: dedupGo (setSeen seen key (c + 1)) rest
      | none => (key :: rs') :: dedupGo (setSeen seen key 1) rest

/-- splitFeatureExpOutput: csv-read the raw bytes, then trim and
disambiguate the records. -/
def splitFeatureExpOutput (raw : List Char) :
    Except CsvErr (List (List (List Char))) :=
  match csvReadAll (raw.length + 1) raw none [] with
  | .error e => .error e
  | .ok recs => .ok (dedupGo [] recs)

/-! Embedding of the feature-expiration probe pipeline. -/

/-- One parsed feature record. -/
structure FeatureExp where
  name : List Char
  version : List Char
  licenses : List Char
  expires : GoFloat
  vendor : List Char
deriving DecidableEq, Repr

/-- Metric descriptors reachable from the embedded code. -/
inductive MetricDesc where
  | lmstatFeatureExp : MetricDesc
  | scrapeDuration : MetricDesc
  | scrapeSuccess : MetricDesc
deriving DecidableEq, Repr

/-- One emitted metric sample: descriptor, gauge value, label values. -/
structure Metric where
  desc : MetricDesc
  value : GoFloat
  labels : List (List Char)
deriving DecidableEq, Repr

/-- A configured license target. -/
structure License where
  name : List Char
  licenseFile : List Char
  licenseServer : List Char
  featuresToExclude : List Char
  featuresToInclude : List Char
deriving DecidableEq, Repr

/-- Capture-group matcher of a joined table row.
Modelled from the spec: the capture pattern lmutilLicenseFeatureExpRegex is
declared outside the provided sources; the spec says rows are matched
against a fixed capture pattern extracting name, version, license-count,
expiry text, and vendor, and non-matching rows are silently dropped, so the
pipeline is parameterized by any such five-capture matcher. -/
def FeatureMatcher : Type :=
  List Char → Option (List Char × List Char × List Char × List Char × List Char)

/-- parseFeatureExpRecords: join each row, match it against the capture
pattern, and build a record from the trimmed captures; the expiry capture is
normalized by parseExpiry. -/
def parseFeatureExpRecords (matcher : FeatureMatcher) :
    List (List (List Char)) → List FeatureExp
  | [] => []
  | row :: rest =>
    if row = [] then parseFeatureExpRecords matcher rest
    else
      match matcher row.flatten with
      | none => parseFeatureExpRecords matcher rest
      | some (m1, m2, m3, m4, m5) =>
        { name := trimSpace m1, version := trimSpace m2,
          licenses := trimSpace m3, expires := parseExpiry m4,
          vendor := trimSpace m5 } :: parseFeatureExpRecords matcher rest

/-- splitCSVList: split a comma-separated option into trimmed entries,
dropping empty ones. -/
def splitCSVList (value : List Char) : List (List Char) :=
  if value = [] then []
  else ((splitOnChar ',' value).map trimSpace).filter (· ≠ [])

/-- Membership test of the filter lists. -/
def containsStr (slice : List (List Char)) (item : List Char) : Bool :=
  slice.any (· = item)

/-- Kind of error returned by running the external command. -/
inductive ExecErrKind where
  | ok : ExecErrKind
  | exit : ExecErrKind
  | other : ExecErrKind
deriving DecidableEq, Repr

/-- Raw result of one subprocess execution: captured standard output,
captured standard error, and how the process ended. -/
structure RawExec where
  stdout : List Char
  stderr : List Char
  errKind : ExecErrKind
deriving DecidableEq, Repr

/-- runRlmstatCommand: return the captured output and whether an error
occurred; on an ExitError the captured standard error is appended to the
output before returning it. -/
def runRlmstatCommand (r : RawExec) : List Char × Bool :=
  match r.errKind with
  | .ok => (r.stdout, false)
  | .exit => (r.stdout ++ r.stderr, true)
  | .other => (r.stdout, true)

/-- Errors returned by collectFeatureExpForLicense. -/
inductive CollectErr where
  | noTarget : CollectErr
  | conflict : CollectErr
  | execFailed : CollectErr
  | splitFailed : CollectErr
deriving DecidableEq, Repr

/-- Target resolution of collectFeatureExpForLicense: the server address,
overridden by the file path when the file path is set. -/
def resolveTarget (license : License) : List Char :=
  if license.licenseFile ≠ [] then license.licenseFile else license.licenseServer

/-- Emission loop over parsed features: skip excluded names, skip names
outside a non-empty include list, and emit one gauge per kept feature with
the 1-based range index as the occurrence label. -/
def emitFeatureMetrics (licName : List Char) (toEx toIn : List (List Char)) :
    Nat → List FeatureExp → List Metric
  | _, [] => []
  | idx, f :: rest =>
    if containsStr toEx f.name then emitFeatureMetrics licName toEx toIn (idx + 1) rest
    else if toIn ≠ [] ∧ ¬ containsStr toIn f.name then
      emitFeatureMetrics licName toEx toIn (idx + 1) rest
    else
      ⟨.lmstatFeatureExp, f.expires,
        [licName, f.name, itoa (idx + 1), f.licenses, f.vendor, f.version]⟩ ::
        emitFeatureMetrics licName toEx toIn (idx + 1) rest

/-- collectFeatureExpForLicense: validate the target and the filter
configuration, run the external tool, treat a non-zero exit with empty
output as a hard failure, parse and filter the output, and emit the
feature-expiration gauges. The run argument models the subprocess result
for a given target. -/
def collectFeatureExpForLicense (matcher : FeatureMatcher)
    (run : List Char → RawExec) (license : License) :
    Except CollectErr (List Metric) :=
  if license.licenseFile = [] ∧ license.licenseServer = [] then .error .noTarget
  else if license.featuresToExclude ≠ [] ∧ license.featuresToInclude ≠ [] then
    .error .conflict
  else
    let res := runRlmstatCommand (run (resolveTarget license))
    if res.2 ∧ res.1 = [] then .error .execFailed
    else
      match splitFeatureExpOutput res.1 with
      | .error _ => .error .splitFailed
      | .ok records =>
        .ok (emitFeatureMetrics license.name
          (splitCSVList license.featuresToExclude)
          (splitCSVList license.featuresToInclude) 0
          (parseFeatureExpRecords matcher records))

/-- getLmstatFeatureExpDate: run the per-license collection over every
configured license, keeping the first error while still processing the
remaining licenses; returns all emitted metrics and the first error. -/
def getLmstatFeatureExpDate (matcher : FeatureMatcher)
    (run : List Char → RawExec) (licenses : List License) :
    List Metric × Option CollectErr :=
  licenses.foldl
    (fun acc lic =>
      match collectFeatureExpForLicense matcher run lic with
      | .ok ms => (acc.1 ++ ms, acc.2)
      | .error e => (acc.1, acc.2 <|> some e))
    ([], none)

/-- buildLicenseCommandArgs: argument vector and target of the line-scan
variant, preferring the file path over the server address and failing when
neither is set. -/
def buildLicenseCommandArgs (license : License) :
    Except CollectErr (List (List Char) × List Char) :=
  if license.licenseFile ≠ [] then
    .ok ([chars "-a", chars "-i", chars "-c", license.licenseFile], license.licenseFile)
  else if license.licenseServer ≠ [] then
    .ok ([chars "-a", chars "-i", chars "-c", license.licenseServer], license.licenseServer)
  else .error .noTarget

/-! Embedding of the line-scanning parser variant. -/

/-- List starts-with test. -/
def startsWithStr : List Char → List Char → Bool
  | [], _ => true
  | _ :: _, [] => false
  | p :: ps, c :: cs => p = c ∧ startsWithStr ps cs

/-- strings.Fields: split on runs of whitespace. -/
def splitFields (l : List Char) : List (List Char) :=
  (splitOnChar ' ' (l.map (fun c => if isGoSpace c then ' ' else c))).filter (· ≠ [])

/-- Try to match the expiry pattern at the head of the list: the literal
marker, then three word characters, a space, two digits, a comma, a space,
and four digits; returns the captured date text. -/
def matchExpiresAt (l : List Char) : Option (List Char) :=
  match l with
  | 'E' :: 'x' :: 'p' :: 'i' :: 'r' :: 'e' :: 's' :: ':' :: ' ' ::
      a :: b :: c :: ' ' :: d :: e :: ',' :: ' ' :: f :: g :: h :: i :: _ =>
    if isWordChar a ∧ isWordChar b ∧ isWordChar c ∧
       d.isDigit ∧ e.isDigit ∧ f.isDigit ∧ g.isDigit ∧ h.isDigit ∧ i.isDigit
    then some [a, b, c, ' ', d, e, ',', ' ', f, g, h, i]
    else none
  | _ => none

/-- Leftmost match of the expiry pattern in a line. -/
def findExpires : List Char → Option (List Char)
  | [] => none
  | c :: t =>
    match matchExpiresAt (c :: t) with
    | some cap => some cap
    | none => findExpires t

/-- Line loop of parseLmstatExpirationOutput, carrying the running feature
and version context. -/
def parseLmstatGo (licName server : List Char) (cf cv : List Char) :
    List (List Char) → List Metric
  | [] => []
  | line :: rest =>
    if startsWithStr (chars "Feature:") line then
      match splitFields line with
      | _ :: p1 :: _ => parseLmstatGo licName server p1 cv rest
      | _ => parseLmstatGo licName server cf cv rest
    else
      match findExpires line with
      | none => parseLmstatGo licName server cf cv rest
      | some cap =>
        match goParseMDY cap with
        | none => parseLmstatGo licName server cf cv rest
        | some (y, m, d) =>
          if cf = [] then parseLmstatGo licName server cf cv rest
          else
            ⟨.lmstatFeatureExp, .val (dateUnix y m d),
              [licName, cf, chars "0", server, [], cv]⟩ ::
              parseLmstatGo licName server cf cv rest

/-- parseLmstatExpirationOutput: scan the output lines, tracking the current
feature from Feature: marker lines and attributing each matched expiry line
to it; the version context starts empty. -/
def parseLmstatExpirationOutput (license : License) (server output : List Char) :
    List Metric :=
  parseLmstatGo license.name server [] [] (splitOnChar '\n' output)

/-! Embedding of the scrape orchestrator. -/

/-- One enabled probe as seen by a scrape: its registry name, the samples
its Update call pushes, whether Update returned an error, and the observed
wall-clock duration. -/
structure ProbeRun where
  name : List Char
  samples : List Metric
  updateErr : Bool
  duration : GoFloat
deriving DecidableEq, Repr

/-- execute: run one collector, then emit its scrape-duration sample and its
scrape-success sample (1 when Update returned nil, else 0). -/
def execute (p : ProbeRun) : List Metric :=
  p.samples ++
    [⟨.scrapeDuration, p.duration, [p.name]⟩,
     ⟨.scrapeSuccess, if p.updateErr then .val 0 else .val 1, [p.name]⟩]

/-- Collect: run every enabled probe and gather all emitted samples; the
channel interleaving across probes is immaterial to per-probe sample
counts, so the fan-out is modelled as concatenation. -/
def rlmlmCollect (ps : List ProbeRun) : List Metric :=
  (ps.map execute).flatten

/-- Test for the orchestrator duration sample of a given probe name. -/
def isDurationFor (n : List Char) (m : Metric) : Bool :=
  m.desc = .scrapeDuration ∧ m.labels = [n]

/-- Test for the orchestrator success sample of a given probe name. -/
def isSuccessFor (n : List Char) (m : Metric) : Bool :=
  m.desc = .scrapeSuccess ∧ m.labels = [n]

/-! Supporting lemmas. -/

/-- Splitting a list free of the separator yields the singleton list. -/
theorem splitOnChar_of_not_mem {sep : Char} {l : List Char} (h : sep ∉ l) :
    splitOnChar sep l = [l] := by
  induction l with
  | nil => rfl
  | cons c t ih =>
    have hc : c ≠ sep := fun he => h (he ▸ List.mem_cons_self c t)
    have ht : sep ∉ t := fun hm => h (List.mem_cons_of_mem c hm)
    simp [splitOnChar, hc, ih ht]

/-- A three-way split certifies that the separator occurs in the input. -/
theorem mem_of_splitOnChar3 {sep : Char} {l d m y : List Char}
    (h : splitOnChar sep l = [d, m, y]) : sep ∈ l := by
  by_contra hnm
  rw [splitOnChar_of_not_mem hnm] at h
  exact absurd (congrArg List.length h) (by simp)

/-- A three-way hyphen split rules out the case-insensitive literals the
normalizer short-circuits on. -/
theorem splitOnChar3_not_fold {l d m y : List Char} (w : List Char)
    (hw : '-' ∉ w.map asciiLower) (h : splitOnChar '-' l = [d, m, y]) :
    equalFold l w = false := by
  have hmem : '-' ∈ l := mem_of_splitOnChar3 h
  by_contra hne
  have heq : l.map asciiLower = w.map asciiLower := by
    have : equalFold l w = true := by
      cases he : equalFold l w with
      | false => exact absurd he hne
      | true => rfl
    simpa [equalFold] using this
  have : '-' ∈ l.map asciiLower :=
    List.mem_map.mpr ⟨'-', hmem, by simp [asciiLower]⟩
  rw [heq] at this
  exact hw this

/-- Shape of the second parse attempt: infinity or a positive epoch. -/
theorem parseExpiryMDY_shape (raw : List Char) :
    parseExpiryMDY raw = .inf ∨ ∃ n : Int, 0 < n ∧ parseExpiryMDY raw = .val n := by
  unfold parseExpiryMDY
  cases h : goParseMDY raw with
  | none => exact Or.inl rfl
  | some t =>
    obtain ⟨y, m, d⟩ := t
    simp only
    split
    · exact Or.inl rfl
    · exact Or.inr ⟨dateUnix y m d, by omega, rfl⟩

/-- Shape of the normalizer result: infinity or a positive epoch, never a
not-a-number value. -/
theorem parseExpiry_shape (raw : List Char) :
    parseExpiry raw = .inf ∨ ∃ n : Int, 0 < n ∧ parseExpiry raw = .val n := by
  unfold parseExpiry
  split
  · exact Or.inl rfl
  split
  · exact Or.inl rfl
  split
  · split
    · dsimp only
      split
      · exact Or.inl rfl
      · rename_i yy mm dd _ hle
        exact Or.inr ⟨_, by omega, rfl⟩
    · exact parseExpiryMDY_shape raw
  · exact parseExpiryMDY_shape raw

/-- Characterization of the three-token branch of the normalizer. -/
theorem parseExpiry_of_split3 (raw d m y : List Char)
    (h : splitOnChar '-' raw = [d, m, y]) :
    parseExpiry raw =
      (match goParseDMY (dmyNormalize d m y) with
       | some (yy, mm, dd) =>
         if dateUnix yy mm dd ≤ 0 then .inf else .val (dateUnix yy mm dd)
       | none => parseExpiryMDY raw) := by
  have hne : raw ≠ [] := by
    intro he
    rw [he] at h
    exact absurd (congrArg List.length h) (by simp [splitOnChar])
  have hp : equalFold raw (chars "permanent") = false :=
    splitOnChar3_not_fold (chars "permanent") (by decide) h
  have hn : equalFold raw (chars "none") = false :=
    splitOnChar3_not_fold (chars "none") (by decide) h
  unfold parseExpiry
  rw [if_neg hne, if_neg (by simp [hp, hn]), h]

/-- C6: the two date representations 31-dec-2025 and Dec 31, 2025 normalize
to the same epoch value, the epoch of 2025-12-31, and both the empty string
and permanent normalize to infinity. -/
theorem c6_date_normalization_agrees :
    parseExpiry (chars "31-dec-2025") = .val 1767139200 ∧
    parseExpiry (chars "Dec 31, 2025") = .val 1767139200 ∧
    parseExpiry (chars "31-dec-2025") = parseExpiry (chars "Dec 31, 2025") ∧
    parseExpiry (chars "") = .inf ∧
    parseExpiry (chars "permanent") = .inf := by
  refine ⟨by decide, by decide, by decide, by decide, by decide⟩

/-- C7 counterexample: for the three-token input 31-dec-25 the candidate
string handed to the fixed day-month-year parse keeps the two-digit year
token 25 unpadded, so a year token shorter than four digits is not
zero-padded on the left unless it has exactly one digit. -/
theorem c7_counterexample_year_not_padded :
    splitOnChar '-' (chars "31-dec-25") = [chars "31", chars "dec", chars "25"] ∧
    dmyNormalize (chars "31") (chars "dec") (chars "25") = chars "31-Dec-25" ∧
    chars "31-Dec-25" ≠ chars "31-Dec-0025" ∧
    dmyNormalize (chars "31") (chars "dec") (chars "999") = chars "31-Dec-999" := by
  refine ⟨by decide, by decide, by decide, by decide⟩

/-- C7 amended: for a three-hyphen-token expiry text the normalizer
title-cases the lowered month token, zero-pads a single-digit day token,
and left-pads only a single-character year token with three zeros; longer
year tokens shorter than four digits are left unchanged, and parsing
proceeds on exactly that candidate string. -/
theorem c7_three_token_normalization (raw d m y : List Char)
    (h : splitOnChar '-' raw = [d, m, y]) :
    parseExpiry raw =
      (match goParseDMY (dmyNormalize d m y) with
       | some (yy, mm, dd) =>
         if dateUnix yy mm dd ≤ 0 then .inf else .val (dateUnix yy mm dd)
       | none => parseExpiryMDY raw) ∧
    dmyNormalize d m y =
      (if d.length = 1 then '0' :: d else d) ++ ['-'] ++
        goTitle (lowerStr m) ++ ['-'] ++
        (if y.length = 1 then '0' :: '0' :: '0' :: y else y) := by
  exact ⟨parseExpiry_of_split3 raw d m y h, rfl⟩

/-- C7 amended witness: the three-token input 3-dec-5 has its day and year
tokens zero-padded and its month title-cased before the day-month-year
parse, which fails on year 0005 and yields infinity. -/
theorem c7_three_token_normalization_witness :
    dmyNormalize (chars "3") (chars "dec") (chars "5") = chars "03-Dec-0005" ∧
    parseExpiry (chars "3-dec-5") = .inf := by
  have h := c7_three_token_normalization (chars "3-dec-5")
    (chars "3") (chars "dec") (chars "5") (by decide)
  refine ⟨by decide, ?_⟩
  rw [h.1]
  decide

/-- C3: the expiry normalizer never yields a not-a-number value; the empty
string, the case-insensitive literals permanent and none, text matching no
date rule, and successfully parsed dates with non-positive epoch all yield
infinity, and every other result is a positive finite epoch value. -/
theorem c3_expiry_never_nan (raw : List Char) :
    parseExpiry raw ≠ .nan ∧
    (parseExpiry raw = .inf ∨ ∃ n : Int, 0 < n ∧ parseExpiry raw = .val n) ∧
    (raw = [] → parseExpiry raw = .inf) ∧
    (equalFold raw (chars "permanent") = true → parseExpiry raw = .inf) ∧
    (equalFold raw (chars "none") = true → parseExpiry raw = .inf) ∧
    (∀ d m y, splitOnChar '-' raw = [d, m, y] →
      goParseDMY (dmyNormalize d m y) = none → goParseMDY raw = none →
      parseExpiry raw = .inf) ∧
    ((∀ d m y, splitOnChar '-' raw ≠ [d, m, y]) → goParseMDY raw = none →
      parseExpiry raw = .inf) ∧
    (∀ d m y yy mm dd, splitOnChar '-' raw = [d, m, y] →
      goParseDMY (dmyNormalize d m y) = some (yy, mm, dd) →
      dateUnix yy mm dd ≤ 0 → parseExpiry raw = .inf) := by
  refine ⟨?_, parseExpiry_shape raw, ?_, ?_, ?_, ?_, ?_, ?_⟩
  · rcases parseExpiry_shape raw with h | ⟨n, _, h⟩ <;> simp [h]
  · intro h
    simp [parseExpiry, h]
  · intro h
    by_cases h0 : raw = []
    · simp [parseExpiry, h0]
    · unfold parseExpiry
      rw [if_neg h0, if_pos (by simp [h])]
  · intro h
    by_cases h0 : raw = []
    · simp [parseExpiry, h0]
    · unfold parseExpiry
      rw [if_neg h0, if_pos (by simp [h])]
  · intro d m y hs h1 h2
    rw [parseExpiry_of_split3 raw d m y hs, h1]
    simp [parseExpiryMDY, h2]
  · intro hns h2
    by_cases h0 : raw = []
    · simp [parseExpiry, h0]
    by_cases hpn : (equalFold raw (chars "permanent") = true ∨ equalFold raw (chars "none") = true)
    · unfold parseExpiry
      rw [if_neg h0, if_pos (by simpa using hpn)]
    · unfold parseExpiry
      rw [if_neg h0, if_neg (by simpa using hpn)]
      cases hsp : splitOnChar '-' raw with
      | nil => simp [parseExpiryMDY, h2]
      | cons a t =>
        match t with
        | [] => simp [parseExpiryMDY, h2]
        | [b] => simp [parseExpiryMDY, h2]
        | [b, c] => exact absurd hsp (hns a b c)
        | b :: c :: e :: t' => simp [parseExpiryMDY, h2]
  · intro d m y yy mm dd hs h1 hle
    rw [parseExpiry_of_split3 raw d m y hs, h1]
    simp [hle]

/-- C3 witness: the case-insensitive literal PERMANENT normalizes to
infinity, by the claim theorem applied at that input. -/
theorem c3_expiry_never_nan_witness : parseExpiry (chars "PERMANENT") = .inf :=
  (c3_expiry_never_nan (chars "PERMANENT")).2.2.2.1 (by decide)

/-! Development for the dedup claim. -/

/-- Keys assigned per the claim: the first occurrence of a trimmed
first-column key is unmodified, later occurrences get the occurrence count
appended, counting from the already-processed prefix. -/
def specKeys (prev : List (List Char)) : List (List (List Char)) → List (List Char)
  | [] => []
  | row :: rest =>
    match row with
    | [] => specKeys prev rest
    | r0 :: _ =>
      let k := trimSpace r0
      (if prev.count k = 0 then k else k ++ itoa (prev.count k + 1)) ::
        specKeys (k :: prev) rest

/-- Storing a key makes it found. -/
theorem lookupSeen_setSeen_self (s : List (List Char × Nat)) (k : List Char) (v : Nat) :
    lookupSeen (setSeen s k v) k = some v := by
  induction s with
  | nil => simp [setSeen, lookupSeen]
  | cons h t ih =>
    obtain ⟨k', w⟩ := h
    by_cases he : k' = k
    · simp [setSeen, lookupSeen, he]
    · simp [setSeen, lookupSeen, he, ih]

/-- Storing a key leaves other keys unchanged. -/
theorem lookupSeen_setSeen_ne (s : List (List Char × Nat)) (k k' : List Char) (v : Nat)
    (h : k' ≠ k) : lookupSeen (setSeen s k v) k' = lookupSeen s k' := by
  induction s with
  | nil =>
    simp only [setSeen, lookupSeen]
    rw [if_neg (fun hx => h hx.symm)]
  | cons hd t ih =>
    obtain ⟨k0, w⟩ := hd
    by_cases he : k0 = k
    · subst he
      simp only [setSeen, if_pos rfl, lookupSeen]
      rw [if_neg (fun hx => h hx.symm), if_neg (fun hx => h hx.symm)]
    · simp only [setSeen, if_neg he, lookupSeen]
      by_cases h0 : k0 = k'
      · rw [if_pos h0, if_pos h0]
      · rw [if_neg h0, if_neg h0]
        exact ih

/-- The occurrence map tracks exactly the multiset of already-seen keys. -/
theorem dedupGo_keys (rest : List (List (List Char))) :
    ∀ (seen : List (List Char × Nat)) (prev : List (List Char)),
      (∀ k, lookupSeen seen k =
        if prev.count k = 0 then none else some (prev.count k)) →
      (dedupGo seen rest).map (fun r => r.headD []) = specKeys prev rest := by
  induction rest with
  | nil => intro seen prev _; rfl
  | cons row rest ih =>
    intro seen prev hinv
    cases row with
    | nil =>
      simp only [dedupGo, specKeys]
      exact ih seen prev hinv
    | cons r0 rs =>
      simp only [dedupGo, specKeys]
      have h0 := hinv (trimSpace r0)
      by_cases hc : prev.count (trimSpace r0) = 0
      · rw [if_pos hc] at h0
        rw [h0]
        simp only [List.map_cons, List.headD, if_pos hc]
        congr 1
        apply ih
        intro k
        by_cases hk : k = trimSpace r0
        · subst hk
          rw [lookupSeen_setSeen_self]
          simp [List.count_cons, hc]
        · rw [lookupSeen_setSeen_ne _ _ _ _ hk, hinv k]
          simp [List.count_cons, hk]
      · rw [if_neg hc] at h0
        rw [h0]
        simp only [List.map_cons, List.headD, if_neg hc]
        congr 1
        apply ih
        intro k
        by_cases hk : k = trimSpace r0
        · subst hk
          rw [lookupSeen_setSeen_self]
          simp [List.count_cons]
        · rw [lookupSeen_setSeen_ne _ _ _ _ hk, hinv k]
          simp [List.count_cons, hk]

/-- C4: the record pass of the delimited-table parser keeps the first row
with a given trimmed first-column key unmodified and appends the occurrence
count, starting at 2, to every subsequent row with the same original key;
in particular three rows keyed FeatureA yield FeatureA, FeatureA2,
FeatureA3 in encounter order. -/
theorem c4_key_occurrence_dedup :
    (∀ recs : List (List (List Char)),
      (dedupGo [] recs).map (fun r => r.headD []) = specKeys [] recs) ∧
    dedupGo [] [[chars "FeatureA", chars "x"], [chars "FeatureA"], [chars "FeatureA"]] =
      [[chars "FeatureA", chars "x"], [chars "FeatureA2"], [chars "FeatureA3"]] ∧
    splitFeatureExpOutput (chars "FeatureAŽx\nFeatureAŽy\nFeatureAŽz\n") =
      .ok [[chars "FeatureA", chars "x"], [chars "FeatureA2", chars "y"],
           [chars "FeatureA3", chars "z"]] := by
  refine ⟨?_, by decide, by rfl⟩
  intro recs
  exact dedupGo_keys recs [] [] (fun k => by simp [lookupSeen])

/-! Development for the per-license error-handling claims. -/

/-- Metrics contributed by one license: its emissions on success, nothing
on error. -/
def licenseContribution (matcher : FeatureMatcher) (run : List Char → RawExec)
    (l : License) : List Metric :=
  match collectFeatureExpForLicense matcher run l with
  | .ok ms => ms
  | .error _ => []

/-- The per-scrape output decomposes license by license: each configured
license contributes exactly its own emissions, independent of its
siblings. -/
theorem getLmstatFeatureExpDate_fst (matcher : FeatureMatcher)
    (run : List Char → RawExec) (licenses : List License) :
    (getLmstatFeatureExpDate matcher run licenses).1 =
      (licenses.map (licenseContribution matcher run)).flatten := by
  suffices h : ∀ acc : List Metric × Option CollectErr,
      (licenses.foldl
        (fun acc lic =>
          match collectFeatureExpForLicense matcher run lic with
          | .ok ms => (acc.1 ++ ms, acc.2)
          | .error e => (acc.1, acc.2 <|> some e)) acc).1 =
      acc.1 ++ (licenses.map (licenseContribution matcher run)).flatten by
    simpa [getLmstatFeatureExpDate] using h ([], none)
  induction licenses with
  | nil => intro acc; simp
  | cons lic rest ih =>
    intro acc
    simp only [List.foldl_cons, List.map_cons, List.flatten_cons]
    cases hc : collectFeatureExpForLicense matcher run lic with
    | ok ms =>
      rw [ih]
      simp [licenseContribution, hc, List.append_assoc]
    | error e =>
      rw [ih]
      simp [licenseContribution, hc]

/-- Non-empty split lists come from non-empty option strings. -/
theorem splitCSVList_ne_nil {v : List Char} (h : splitCSVList v ≠ []) : v ≠ [] := by
  intro he
  subst he
  exact h rfl

/-- C5: a license whose include and exclude lists are both non-empty is
answered with a configuration error and contributes no samples, while the
scrape output remains the concatenation of every license's own
contribution, so sibling licenses are processed and emitted unaffected. -/
theorem c5_conflicting_filters_isolated (matcher : FeatureMatcher)
    (run : List Char → RawExec) (licenses : List License) (lic : License)
    (_hmem : lic ∈ licenses)
    (hin : splitCSVList lic.featuresToInclude ≠ [])
    (hex : splitCSVList lic.featuresToExclude ≠ []) :
    (collectFeatureExpForLicense matcher run lic = .error .conflict ∨
     collectFeatureExpForLicense matcher run lic = .error .noTarget) ∧
    licenseContribution matcher run lic = [] ∧
    (getLmstatFeatureExpDate matcher run licenses).1 =
      (licenses.map (licenseContribution matcher run)).flatten := by
  have hins := splitCSVList_ne_nil hin
  have hexs := splitCSVList_ne_nil hex
  have hres : collectFeatureExpForLicense matcher run lic = .error .conflict ∨
      collectFeatureExpForLicense matcher run lic = .error .noTarget := by
    by_cases ht : lic.licenseFile = [] ∧ lic.licenseServer = []
    · exact Or.inr (by simp [collectFeatureExpForLicense, ht])
    · exact Or.inl (by simp [collectFeatureExpForLicense, ht, hexs, hins])
  refine ⟨hres, ?_, getLmstatFeatureExpDate_fst matcher run licenses⟩
  rcases hres with h | h <;> simp [licenseContribution, h]

/-- C5 witness: in a two-license configuration where the first license sets
both filter lists, the first license yields the conflict error and the
second still emits its sample. -/
theorem c5_conflicting_filters_isolated_witness :
    (collectFeatureExpForLicense
        (fun l => if l = chars "ok" then some (chars "N", chars "V", chars "5", [], chars "W") else none)
        (fun _ => ⟨chars "ok", [], .ok⟩)
        ⟨chars "A", chars "f", [], chars "x", chars "y"⟩ = .error .conflict ∨
     collectFeatureExpForLicense
        (fun l => if l = chars "ok" then some (chars "N", chars "V", chars "5", [], chars "W") else none)
        (fun _ => ⟨chars "ok", [], .ok⟩)
        ⟨chars "A", chars "f", [], chars "x", chars "y"⟩ = .error .noTarget) ∧
    licenseContribution
        (fun l => if l = chars "ok" then some (chars "N", chars "V", chars "5", [], chars "W") else none)
        (fun _ => ⟨chars "ok", [], .ok⟩)
        ⟨chars "A", chars "f", [], chars "x", chars "y"⟩ = [] ∧
    (getLmstatFeatureExpDate
        (fun l => if l = chars "ok" then some (chars "N", chars "V", chars "5", [], chars "W") else none)
        (fun _ => ⟨chars "ok", [], .ok⟩)
        [⟨chars "A", chars "f", [], chars "x", chars "y"⟩,
         ⟨chars "B", chars "g", [], [], []⟩]).1 =
      ([⟨chars "A", chars "f", [], chars "x", chars "y"⟩,
        ⟨chars "B", chars "g", [], [], []⟩].map
        (licenseContribution
          (fun l => if l = chars "ok" then some (chars "N", chars "V", chars "5", [], chars "W") else none)
          (fun _ => ⟨chars "ok", [], .ok⟩))).flatten :=
  c5_conflicting_filters_isolated _ _ _ _ (by decide) (by decide) (by decide)

/-- C2 counterexample: a non-zero exit with non-empty captured output is
not always soft: when the table reader rejects the output (here for an
inconsistent field count) the probe still returns a hard error and emits
zero feature samples, so hard errors are not exactly the empty-output
non-zero-exit cases. -/
theorem c2_counterexample_nonempty_hard_error :
    (runRlmstatCommand ⟨chars "aŽb\nc\n", [], .exit⟩).2 = true ∧
    (runRlmstatCommand ⟨chars "aŽb\nc\n", [], .exit⟩).1 ≠ [] ∧
    splitFeatureExpOutput (runRlmstatCommand ⟨chars "aŽb\nc\n", [], .exit⟩).1 =
      .error .fieldCount ∧
    collectFeatureExpForLicense (fun _ => none) (fun _ => ⟨chars "aŽb\nc\n", [], .exit⟩)
      ⟨chars "L", chars "f", [], [], []⟩ = .error .splitFailed := by
  refine ⟨by rfl, by decide, by rfl, by rfl⟩

/-- C2 amended: for a validly configured license, the probe returns a hard
error exactly when the execution errored with empty captured output or the
table reader rejects the captured output; a non-zero exit with non-empty
output that the reader accepts is soft: the captured output is handed to
the parser and its records are emitted. -/
theorem c2_soft_error_policy (matcher : FeatureMatcher)
    (run : List Char → RawExec) (lic : License)
    (h1 : ¬(lic.licenseFile = [] ∧ lic.licenseServer = []))
    (h2 : ¬(lic.featuresToExclude ≠ [] ∧ lic.featuresToInclude ≠ [])) :
    (((runRlmstatCommand (run (resolveTarget lic))).2 ∧
        (runRlmstatCommand (run (resolveTarget lic))).1 = []) →
      collectFeatureExpForLicense matcher run lic = .error .execFailed) ∧
    (¬((runRlmstatCommand (run (resolveTarget lic))).2 ∧
        (runRlmstatCommand (run (resolveTarget lic))).1 = []) →
      (∀ e, splitFeatureExpOutput (runRlmstatCommand (run (resolveTarget lic))).1 =
          .error e →
        collectFeatureExpForLicense matcher run lic = .error .splitFailed) ∧
      (∀ recs, splitFeatureExpOutput (runRlmstatCommand (run (resolveTarget lic))).1 =
          .ok recs →
        collectFeatureExpForLicense matcher run lic =
          .ok (emitFeatureMetrics lic.name (splitCSVList lic.featuresToExclude)
            (splitCSVList lic.featuresToInclude) 0
            (parseFeatureExpRecords matcher recs)))) := by
  constructor
  · intro hhard
    simp [collectFeatureExpForLicense, h1, h2, hhard]
  · intro hsoft
    constructor
    · intro e he
      simp [collectFeatureExpForLicense, h1, h2, hsoft, he]
    · intro recs hr
      simp [collectFeatureExpForLicense, h1, h2, hsoft, hr]

/-- C2 amended witness: a non-zero exit with the single-cell output x is
soft: the output is parsed (the matcher rejects it) and the probe returns
success with no samples. -/
theorem c2_soft_error_policy_witness :
    collectFeatureExpForLicense (fun _ => none) (fun _ => ⟨chars "x", [], .exit⟩)
      ⟨chars "L", chars "f", [], [], []⟩ = .ok [] := by
  rw [((c2_soft_error_policy (fun _ => none) (fun _ => ⟨chars "x", [], .exit⟩)
      ⟨chars "L", chars "f", [], [], []⟩ (by decide) (by decide)).2
    (by decide) ).2 [[chars "x"]] (by rfl)]
  rfl

/-- C8 counterexample: on an ExitError the captured standard error is
appended to the standard output before the bytes are handed on, so the
parser does not receive exactly the standard output: with stdout a and
stderr b the probe parses ab and can emit a record the standard output
alone would not produce. -/
theorem c8_counterexample_stderr_parsed :
    (runRlmstatCommand ⟨chars "a", chars "b", .exit⟩).1 = chars "ab" ∧
    (runRlmstatCommand ⟨chars "a", chars "b", .exit⟩).1 ≠
      (⟨chars "a", chars "b", .exit⟩ : RawExec).stdout ∧
    collectFeatureExpForLicense
      (fun l => if l = chars "ab" then some (chars "N", chars "V", chars "5", [], chars "W") else none)
      (fun _ => ⟨chars "a", chars "b", .exit⟩) ⟨chars "L", chars "f", [], [], []⟩ =
      .ok [⟨.lmstatFeatureExp, .inf,
        [chars "L", chars "N", chars "1", chars "5", chars "W", chars "V"]⟩] := by
  refine ⟨by rfl, by decide, by rfl⟩

/-- C8 amended: the bytes the probe hands to the parser are exactly the
captured standard output when the process succeeds or fails without an
ExitError; on an ExitError the captured standard error is appended to the
standard output and the combined bytes are what the parser receives. -/
theorem c8_parsed_bytes (r : RawExec) :
    (r.errKind = .exit →
      (runRlmstatCommand r).1 = r.stdout ++ r.stderr) ∧
    (r.errKind ≠ .exit → (runRlmstatCommand r).1 = r.stdout) ∧
    ((runRlmstatCommand r).2 = true ↔ r.errKind ≠ .ok) := by
  cases hk : r.errKind <;> simp [runRlmstatCommand, hk]

/-- C8 amended witness: applying the amended statement to a concrete
ExitError execution with stdout a and stderr b. -/
theorem c8_parsed_bytes_witness :
    (runRlmstatCommand ⟨chars "a", chars "b", .exit⟩).1 = chars "a" ++ chars "b" :=
  (c8_parsed_bytes ⟨chars "a", chars "b", .exit⟩).1 rfl

/-- C9 counterexample: a license with both the file path and the server
address set is not rejected: the argument builder succeeds using the file
path, target resolution silently prefers the file path, and the probe
proceeds without a configuration error. -/
theorem c9_counterexample_both_set_accepted :
    buildLicenseCommandArgs ⟨chars "L", chars "f", chars "s", [], []⟩ =
      .ok ([chars "-a", chars "-i", chars "-c", chars "f"], chars "f") ∧
    resolveTarget ⟨chars "L", chars "f", chars "s", [], []⟩ = chars "f" ∧
    collectFeatureExpForLicense (fun _ => none) (fun _ => ⟨[], [], .ok⟩)
      ⟨chars "L", chars "f", chars "s", [], []⟩ = .ok [] := by
  refine ⟨by rfl, by rfl, by rfl⟩

/-- C9 amended: a license with neither the file path nor the server address
set yields the missing-target configuration error for that license only,
and the scrape output stays the concatenation of every license's own
contribution; a license with both set is not rejected: the file path
silently takes precedence over the server address. -/
theorem c9_target_selection (lic : License) :
    (lic.licenseFile = [] → lic.licenseServer = [] →
      buildLicenseCommandArgs lic = .error .noTarget ∧
      ∀ (matcher : FeatureMatcher) (run : List Char → RawExec),
        collectFeatureExpForLicense matcher run lic = .error .noTarget) ∧
    (lic.licenseFile ≠ [] →
      buildLicenseCommandArgs lic =
        .ok ([chars "-a", chars "-i", chars "-c", lic.licenseFile], lic.licenseFile) ∧
      resolveTarget lic = lic.licenseFile) ∧
    (lic.licenseFile = [] → lic.licenseServer ≠ [] →
      buildLicenseCommandArgs lic =
        .ok ([chars "-a", chars "-i", chars "-c", lic.licenseServer], lic.licenseServer) ∧
      resolveTarget lic = lic.licenseServer) ∧
    (∀ (matcher : FeatureMatcher) (run : List Char → RawExec)
        (licenses : List License),
      (getLmstatFeatureExpDate matcher run licenses).1 =
        (licenses.map (licenseContribution matcher run)).flatten) := by
  refine ⟨?_, ?_, ?_, fun matcher run licenses =>
    getLmstatFeatureExpDate_fst matcher run licenses⟩
  · intro hf hs
    refine ⟨by simp [buildLicenseCommandArgs, hf, hs], fun matcher run => ?_⟩
    simp [collectFeatureExpForLicense, hf, hs]
  · intro hf
    exact ⟨by simp [buildLicenseCommandArgs, hf], by simp [resolveTarget, hf]⟩
  · intro hf hs
    exact ⟨by simp [buildLicenseCommandArgs, hf, hs], by simp [resolveTarget, hf]⟩

/-- C9 amended witness: a license with only the server address set builds
server-targeted arguments and resolves to the server, by the amended
statement applied at that license. -/
theorem c9_target_selection_witness :
    buildLicenseCommandArgs ⟨chars "L", [], chars "s", [], []⟩ =
      .ok ([chars "-a", chars "-i", chars "-c", chars "s"], chars "s") ∧
    resolveTarget ⟨chars "L", [], chars "s", [], []⟩ = chars "s" := by
  have h := ((c9_target_selection ⟨chars "L", [], chars "s", [], []⟩).2.2.1
    (by decide) (by decide))
  exact h

/-! Development for the line-scanning parser claim. -/

/-- Every sample of the line loop carries the constant occurrence label and
the running version context in the fixed label positions. -/
theorem parseLmstatGo_labels (lines : List (List Char)) :
    ∀ (licName server cf cv : List Char) (m : Metric),
      m ∈ parseLmstatGo licName server cf cv lines →
      m.labels[2]? = some (chars "0") ∧ m.labels[5]? = some cv := by
  induction lines with
  | nil => intro _ _ _ _ m hm; exact absurd hm (by simp [parseLmstatGo])
  | cons line rest ih =>
    intro licName server cf cv m hm
    by_cases hf : startsWithStr (chars "Feature:") line = true
    · rw [parseLmstatGo, if_pos hf] at hm
      rcases hsp : splitFields line with _ | ⟨p0, _ | ⟨p1, ps⟩⟩ <;> rw [hsp] at hm
      · exact ih licName server cf cv m hm
      · exact ih licName server cf cv m hm
      · exact ih licName server p1 cv m hm
    · rw [parseLmstatGo, if_neg hf] at hm
      cases hfe : findExpires line with
      | none => rw [hfe] at hm; exact ih licName server cf cv m hm
      | some cap =>
        rw [hfe] at hm
        dsimp only at hm
        cases hmd : goParseMDY cap with
        | none => rw [hmd] at hm; exact ih licName server cf cv m hm
        | some t =>
          obtain ⟨y, mo, d⟩ := t
          rw [hmd] at hm
          dsimp only at hm
          by_cases hcf : cf = []
          · rw [if_pos hcf] at hm; exact ih licName server cf cv m hm
          · rw [if_neg hcf] at hm
            rcases List.mem_cons.mp hm with he | hmem
            · subst he; exact ⟨rfl, rfl⟩
            · exact ih licName server cf cv m hmem

/-- C10: every sample of the line-scanning parser variant carries the
constant occurrence-index label 0 and the empty version label: the version
context starts empty and no line of the scan ever assigns it. -/
theorem c10_line_scan_constant_labels (license : License) (server output : List Char)
    (m : Metric) (hm : m ∈ parseLmstatExpirationOutput license server output) :
    m.labels[2]? = some (chars "0") ∧ m.labels[5]? = some [] :=
  parseLmstatGo_labels (splitOnChar '\n' output) license.name server [] [] m hm

/-- C10 witness: the sample produced for FeatureB by a marker line followed
by an expiry line has occurrence label 0 and empty version label, by the
claim theorem applied at that concrete output. -/
theorem c10_line_scan_constant_labels_witness :
    (⟨MetricDesc.lmstatFeatureExp, .val 1893542400,
      [chars "L", chars "FeatureB", chars "0", chars "srv", [], []]⟩ : Metric).labels[2]? =
        some (chars "0") ∧
    (⟨MetricDesc.lmstatFeatureExp, .val 1893542400,
      [chars "L", chars "FeatureB", chars "0", chars "srv", [], []]⟩ : Metric).labels[5]? =
        some [] :=
  c10_line_scan_constant_labels ⟨chars "L", [], [], [], []⟩ (chars "srv")
    (chars "Feature: FeatureB 11\nblah\n   Expires: Jan 02, 2030\n")
    ⟨MetricDesc.lmstatFeatureExp, .val 1893542400,
      [chars "L", chars "FeatureB", chars "0", chars "srv", [], []]⟩
    (by decide)

/-! Development for the orchestrator claim. -/

/-- A probe whose Update never pushes samples under the orchestrator
descriptors contributes exactly one duration and one success sample for its
own name. -/
theorem execute_countP_self (p : ProbeRun)
    (hp : ∀ m ∈ p.samples, m.desc ≠ .scrapeDuration ∧ m.desc ≠ .scrapeSuccess) :
    (execute p).countP (isDurationFor p.name) = 1 ∧
    (execute p).countP (isSuccessFor p.name) = 1 := by
  have hz1 : p.samples.countP (isDurationFor p.name) = 0 :=
    List.countP_eq_zero.mpr fun m hm => by
      simp [isDurationFor, (hp m hm).1]
  have hz2 : p.samples.countP (isSuccessFor p.name) = 0 :=
    List.countP_eq_zero.mpr fun m hm => by
      simp [isSuccessFor, (hp m hm).2]
  constructor
  · simp [execute, List.countP_append, hz1, List.countP_cons, isDurationFor]
  · simp [execute, List.countP_append, hz2, List.countP_cons, isSuccessFor]

/-- A clean probe contributes no duration or success samples for a name
other than its own. -/
theorem execute_countP_ne (p : ProbeRun) (n : List Char) (hne : p.name ≠ n)
    (hp : ∀ m ∈ p.samples, m.desc ≠ .scrapeDuration ∧ m.desc ≠ .scrapeSuccess) :
    (execute p).countP (isDurationFor n) = 0 ∧
    (execute p).countP (isSuccessFor n) = 0 := by
  have hz1 : p.samples.countP (isDurationFor n) = 0 :=
    List.countP_eq_zero.mpr fun m hm => by
      simp [isDurationFor, (hp m hm).1]
  have hz2 : p.samples.countP (isSuccessFor n) = 0 :=
    List.countP_eq_zero.mpr fun m hm => by
      simp [isSuccessFor, (hp m hm).2]
  constructor
  · simp [execute, List.countP_append, hz1, List.countP_cons, isDurationFor, hne]
  · simp [execute, List.countP_append, hz2, List.countP_cons, isSuccessFor, hne]

/-- A scrape over clean probes none of which carries a name contributes no
orchestrator samples for that name. -/
theorem rlmlmCollect_countP_zero (ps : List ProbeRun) (n : List Char)
    (hn : ∀ q ∈ ps, q.name ≠ n)
    (hclean : ∀ q ∈ ps, ∀ m ∈ q.samples,
      m.desc ≠ .scrapeDuration ∧ m.desc ≠ .scrapeSuccess) :
    (rlmlmCollect ps).countP (isDurationFor n) = 0 ∧
    (rlmlmCollect ps).countP (isSuccessFor n) = 0 := by
  induction ps with
  | nil => simp [rlmlmCollect]
  | cons q rest ih =>
    have hq := execute_countP_ne q n (hn q (by simp))
      (fun m hm => hclean q (by simp) m hm)
    have hr := ih (fun r hr => hn r (by simp [hr]))
      (fun r hr m hm => hclean r (by simp [hr]) m hm)
    constructor
    · simp [rlmlmCollect, List.countP_append, hq.1]
      simpa [rlmlmCollect] using hr.1
    · simp [rlmlmCollect, List.countP_append, hq.2]
      simpa [rlmlmCollect] using hr.2

/-- C1: on each scrape the orchestrator emits, for every enabled probe,
exactly one wall-clock duration sample and exactly one success sample whose
value is 1 when that probe's Update returned no error and 0 otherwise, and
one probe's error never prevents any other probe's samples, including its
duration and success samples, from appearing in the same scrape. -/
theorem c1_per_probe_samples (ps : List ProbeRun)
    (hnd : (ps.map ProbeRun.name).Nodup)
    (hclean : ∀ q ∈ ps, ∀ m ∈ q.samples,
      m.desc ≠ .scrapeDuration ∧ m.desc ≠ .scrapeSuccess)
    (p : ProbeRun) (hp : p ∈ ps) :
    (rlmlmCollect ps).countP (isDurationFor p.name) = 1 ∧
    (rlmlmCollect ps).countP (isSuccessFor p.name) = 1 ∧
    (⟨.scrapeSuccess, if p.updateErr then .val 0 else .val 1, [p.name]⟩ : Metric) ∈
      rlmlmCollect ps ∧
    (⟨.scrapeDuration, p.duration, [p.name]⟩ : Metric) ∈ rlmlmCollect ps ∧
    ∀ m ∈ p.samples, m ∈ rlmlmCollect ps := by
  induction ps with
  | nil => exact absurd hp (by simp)
  | cons q rest ih =>
    have hcollect : rlmlmCollect (q :: rest) = execute q ++ rlmlmCollect rest := by
      simp [rlmlmCollect]
    rw [List.map_cons, List.nodup_cons] at hnd
    rcases List.mem_cons.mp hp with he | hmem
    · subst he
      have hself := execute_countP_self p (fun m hm => hclean p (by simp) m hm)
      have hzero := rlmlmCollect_countP_zero rest p.name
        (fun r hr hn => hnd.1 (hn ▸ List.mem_map.mpr ⟨r, hr, rfl⟩))
        (fun r hr m hm => hclean r (by simp [hr]) m hm)
      refine ⟨?_, ?_, ?_, ?_, ?_⟩
      · rw [hcollect, List.countP_append, hself.1, hzero.1]
      · rw [hcollect, List.countP_append, hself.2, hzero.2]
      · rw [hcollect]
        refine List.mem_append_left _ ?_
        simp [execute]
      · rw [hcollect]
        refine List.mem_append_left _ ?_
        simp [execute]
      · intro m hm
        rw [hcollect]
        exact List.mem_append_left _ (List.mem_append_left _ hm)
    · have hqn : q.name ≠ p.name := by
        intro he
        exact hnd.1 (he ▸ List.mem_map.mpr ⟨p, hmem, rfl⟩)
      have hq := execute_countP_ne q p.name hqn
        (fun m hm => hclean q (by simp) m hm)
      have hrest := ih hnd.2 (fun r hr m hm => hclean r (by simp [hr]) m hm) hmem
      refine ⟨?_, ?_, ?_, ?_, ?_⟩
      · rw [hcollect, List.countP_append, hq.1, hrest.1]
      · rw [hcollect, List.countP_append, hq.2, hrest.2.1]
      · rw [hcollect]
        exact List.mem_append_right _ hrest.2.2.1
      · rw [hcollect]
        exact List.mem_append_right _ hrest.2.2.2.1
      · intro m hm
        rw [hcollect]
        exact List.mem_append_right _ (hrest.2.2.2.2 m hm)

/-- C1 witness: with two probes, the first failing and the second
succeeding with one sample of its own, the scrape carries exactly one
duration and one success sample per probe, with success 0 for the failing
probe, and the failing probe does not suppress the other probe's samples. -/
theorem c1_per_probe_samples_witness :
    (rlmlmCollect [⟨chars "bad", [], true, .val 7⟩,
      ⟨chars "good", [⟨.lmstatFeatureExp, .val 3, [chars "x"]⟩], false, .val 9⟩]).countP
        (isDurationFor (chars "bad")) = 1 ∧
    (rlmlmCollect [⟨chars "bad", [], true, .val 7⟩,
      ⟨chars "good", [⟨.lmstatFeatureExp, .val 3, [chars "x"]⟩], false, .val 9⟩]).countP
        (isSuccessFor (chars "bad")) = 1 ∧
    (⟨.scrapeSuccess, .val 0, [chars "bad"]⟩ : Metric) ∈
      rlmlmCollect [⟨chars "bad", [], true, .val 7⟩,
        ⟨chars "good", [⟨.lmstatFeatureExp, .val 3, [chars "x"]⟩], false, .val 9⟩] ∧
    (⟨.scrapeDuration, .val 7, [chars "bad"]⟩ : Metric) ∈
      rlmlmCollect [⟨chars "bad", [], true, .val 7⟩,
        ⟨chars "good", [⟨.lmstatFeatureExp, .val 3, [chars "x"]⟩], false, .val 9⟩] ∧
    ∀ m ∈ ([⟨.lmstatFeatureExp, .val 3, [chars "x"]⟩] : List Metric),
      m ∈ rlmlmCollect [⟨chars "bad", [], true, .val 7⟩,
        ⟨chars "good", [⟨.lmstatFeatureExp, .val 3, [chars "x"]⟩], false, .val 9⟩] := by
  have hbad := c1_per_probe_samples
    [⟨chars "bad", [], true, .val 7⟩,
     ⟨chars "good", [⟨.lmstatFeatureExp, .val 3, [chars "x"]⟩], false, .val 9⟩]
    (by decide) (by decide) ⟨chars "bad", [], true, .val 7⟩ (by decide)
  have hgood := c1_per_probe_samples
    [⟨chars "bad", [], true, .val 7⟩,
     ⟨chars "good", [⟨.lmstatFeatureExp, .val 3, [chars "x"]⟩], false, .val 9⟩]
    (by decide) (by decide)
    ⟨chars "good", [⟨.lmstatFeatureExp, .val 3, [chars "x"]⟩], false, .val 9⟩ (by decide)
  exact ⟨hbad.1, hbad.2.1, hbad.2.2.1, hbad.2.2.2.1, hgood.2.2.2.2⟩
